import Mathlib

/-!
Shallow embedding of `ptext/io/read/tokenize/low_level_tokenizer.py`.

The byte source is a `List Nat` of byte values.  The Python code decodes every
byte it reads with latin-1, so one character of the Python strings corresponds
to exactly one byte value in the 0–255 range; we work directly with the byte
values.  The cursor of the underlying `io_source` is an explicit position
`p : Nat`; a call `read(1)` is modelled by walking the suffix `src.drop p`
(the unread bytes), and the one-byte pushback `_prev_char` (a relative seek by
`-1`) is modelled by returning the position of the unconsumed byte.  The two
Python `assert` statements are fallible code and are modelled with `Except`;
each assert site gets its own error constructor, matching the error taxonomy
of the specification.

Every scanning loop of `next_token` becomes one structurally recursive
function on the unread suffix, carrying the accumulated text `acc` and the
cursor position `p` exactly as the Python loop does.
-/

namespace Ptext

/-- The `TokenType` enumeration of the Python module, all fourteen variants,
including the ones `next_token` never produces. -/
inductive TokenType where
  | NUMBER
  | STRING
  | HEX_STRING
  | NAME
  | COMMENT
  | START_ARRAY
  | END_ARRAY
  | START_DICT
  | END_DICT
  | REF
  | OBJ
  | END_OBJ
  | OTHER
  | END_OF_FILE
deriving DecidableEq, Repr

/-- The `Token` record: byte offset of the first byte of the lexeme, the
token type, and the raw captured text (as byte values). -/
structure Token where
  byte_offset : Nat
  token_type : TokenType
  text : List Nat
deriving DecidableEq, Repr

/-- The two `assert` sites of `next_token`, as values identifying which
program point failed: the dictionary-close assert in the `>` branch (line
133 of the source) and the unterminated-string assert at the end of the `(`
branch (line 203).  This distinction identifies the failing statement, not
what the caller can observe: at run time both sites raise the same bare,
argument-less `AssertionError` — see `raisedException` below. -/
inductive ScanError where
  | malformedDictionaryClose
  | unterminatedString
deriving DecidableEq, Repr

/-- The Python exception classes the tokenizer can raise.  A failing
`assert` statement raises `AssertionError`; neither assert of `next_token`
carries a message or any other argument. -/
inductive PyException where
  | assertionError
deriving DecidableEq, Repr

/-- The exception the caller of `next_token` actually observes for each
failing assert site: both sites raise the identical bare `AssertionError`,
so the two fatal conditions are not distinguishable to the caller. -/
def raisedException : ScanError → PyException
  | ScanError.malformedDictionaryClose => PyException.assertionError
  | ScanError.unterminatedString => PyException.assertionError

/-- `_is_whitespace`: byte values 0, 9, 10, 12, 13, 32. -/
def isWhitespaceByte (b : Nat) : Bool :=
  b = 0 || b = 9 || b = 10 || b = 12 || b = 13 || b = 32

/-- `_is_delimiter`: byte values 0, 9, 10, 12, 13, 32, 37 `%`, 40 `(`,
41 `)`, 47 `/`, 60 `<`, 62 `>`, 91 `[`, 93 `]`.  (The Python list also
contains `-1`, which `ord` can never produce.) -/
def isDelimiterByte (b : Nat) : Bool :=
  b = 0 || b = 9 || b = 10 || b = 12 || b = 13 || b = 32 || b = 37 ||
  b = 40 || b = 41 || b = 47 || b = 60 || b = 62 || b = 91 || b = 93

/-- Membership of one character in the Python string `"-+.0123456789"`:
bytes 45 `-`, 43 `+`, 46 `.`, and 48–57 `0`–`9`. -/
def isNumberByte (b : Nat) : Bool :=
  b = 45 || b = 43 || b = 46 || (48 ≤ b && b ≤ 57)

/-- The NAME loop: read a byte; stop on end of stream (cursor stays at `p`)
or on a delimiter (the delimiter is pushed back, cursor stays at `p`);
otherwise append the byte and continue.  `rest` is the unread suffix at
position `p`. -/
def nameScan (rest : List Nat) (acc : List Nat) (p : Nat) : List Nat × Nat :=
  match rest with
  | [] => (acc, p)
  | c :: rest' =>
    if isDelimiterByte c then (acc, p)
    else nameScan rest' (acc ++ [c]) (p + 1)

/-- The COMMENT loop: `ch` is the byte already read (the cursor is at `p`,
just past it).  Stop before appending on `\r` (13) or `\n` (10), pushing the
terminator back; on end of stream stop after appending; otherwise append and
read the next byte. -/
def commentScan (ch : Nat) (rest : List Nat) (acc : List Nat) (p : Nat) :
    List Nat × Nat :=
  if ch = 13 || ch = 10 then (acc, p - 1)
  else
    match rest with
    | [] => (acc ++ [ch], p)
    | c :: rest' => commentScan c rest' (acc ++ [ch]) (p + 1)

/-- The HEX_STRING loop: read a byte; stop on end of stream (partial text is
kept); append the byte; stop after appending a `>` (62). -/
def hexScan (rest : List Nat) (acc : List Nat) (p : Nat) : List Nat × Nat :=
  match rest with
  | [] => (acc, p)
  | c :: rest' =>
    if c = 62 then (acc ++ [c], p + 1)
    else hexScan rest' (acc ++ [c]) (p + 1)

/-- The NUMBER loop: `ch` is the byte already read (cursor at `p`).  While
the byte is in the class `-+.0123456789` append it and read on; a byte
outside the class is pushed back; end of stream stops the loop after the
append. -/
def numberScan (ch : Nat) (rest : List Nat) (acc : List Nat) (p : Nat) :
    List Nat × Nat :=
  if isNumberByte ch then
    match rest with
    | [] => (acc ++ [ch], p)
    | c :: rest' => numberScan c rest' (acc ++ [ch]) (p + 1)
  else (acc, p - 1)

/-- The STRING loop (balanced parentheses).  Reading at end of stream breaks
the loop with `ch = ""` and the `assert len(ch) != 0` fails: modelled as the
`unterminatedString` error.  On a backslash (92) the next byte is consumed
unconditionally and appended verbatim; if that read hits end of stream the
following iteration reads at end of stream again and the same assert fails.
An unescaped `(` (40) increments, an unescaped `)` (41) decrements the
nesting counter; after appending, the loop breaks when the counter is 0. -/
def stringScan (rest : List Nat) (nesting : Int) (acc : List Nat) (p : Nat) :
    Except ScanError (List Nat × Nat) :=
  match rest with
  | [] => Except.error ScanError.unterminatedString
  | c :: rest' =>
    if c = 92 then
      match rest' with
      | [] => Except.error ScanError.unterminatedString
      | c2 :: rest'' => stringScan rest'' nesting (acc ++ [92, c2]) (p + 2)
    else
      let nesting' : Int :=
        if c = 40 then nesting + 1 else if c = 41 then nesting - 1 else nesting
      if nesting' = 0 then Except.ok (acc ++ [c], p + 1)
      else stringScan rest' nesting' (acc ++ [c]) (p + 1)

/-- The OTHER loop: `ch` is the byte already read (cursor at `p`).  While the
byte is not a delimiter append it and read on; a delimiter is pushed back;
end of stream stops the loop after the append. -/
def otherScan (ch : Nat) (rest : List Nat) (acc : List Nat) (p : Nat) :
    List Nat × Nat :=
  if isDelimiterByte ch then (acc, p - 1)
  else
    match rest with
    | [] => (acc ++ [ch], p)
    | c :: rest' => otherScan c rest' (acc ++ [ch]) (p + 1)

/-- The dispatch of `next_token` on the first non-whitespace byte `ch`.
`rest` is the unread suffix and `p` the cursor position just after `ch`, so
the lexeme starts at offset `p - 1` (`tell() - 1` in the Python code). -/
def dispatchToken (rest : List Nat) (ch : Nat) (p : Nat) :
    Except ScanError (Option Token) × Nat :=
  if ch = 91 then
      (Except.ok (some ⟨p - 1, TokenType.START_ARRAY, [91]⟩), p)
    else if ch = 93 then
      (Except.ok (some ⟨p - 1, TokenType.END_ARRAY, [93]⟩), p)
    else if ch = 47 then
      let r := nameScan rest [47] p
      (Except.ok (some ⟨p - 1, TokenType.NAME, r.1⟩), r.2)
    else if ch = 62 then
      match rest with
      | [] => (Except.error ScanError.malformedDictionaryClose, p)
      | c :: _ =>
        if c = 62 then (Except.ok (some ⟨p - 1, TokenType.END_DICT, [62, 62]⟩), p + 1)
        else (Except.error ScanError.malformedDictionaryClose, p + 1)
    else if ch = 37 then
      let r := commentScan 37 rest [] p
      (Except.ok (some ⟨p - 1, TokenType.COMMENT, r.1⟩), r.2)
    else if ch = 60 then
      match rest with
      | [] =>
        -- the follow-up read yields the empty string, which is neither `<`
        -- nor `>`; the hex accumulator starts as `"<" + "" = "<"`
        let r := hexScan [] [60] p
        (Except.ok (some ⟨p - 1, TokenType.HEX_STRING, r.1⟩), r.2)
      | c2 :: rest' =>
        if c2 = 60 then (Except.ok (some ⟨p - 1, TokenType.START_DICT, [60, 60]⟩), p + 1)
        else if c2 = 62 then (Except.ok (some ⟨p - 1, TokenType.HEX_STRING, [60, 62]⟩), p + 1)
        else
          let r := hexScan rest' [60, c2] (p + 1)
          (Except.ok (some ⟨p - 1, TokenType.HEX_STRING, r.1⟩), r.2)
    else if isNumberByte ch then
      let r := numberScan ch rest [] p
      (Except.ok (some ⟨p - 1, TokenType.NUMBER, r.1⟩), r.2)
    else if ch = 40 then
      match stringScan rest 1 [40] p with
      | Except.ok (txt, p') => (Except.ok (some ⟨p - 1, TokenType.STRING, txt⟩), p')
      | Except.error e => (Except.error e, p)
    else
      let r := otherScan ch rest [] p
      (Except.ok (some ⟨p - 1, TokenType.OTHER, r.1⟩), r.2)

/-- The whitespace-skip loop at the top of `next_token`: `ch` is the byte
already read, `rest` the unread suffix at position `p`.  If the source runs
out during the skip, the Python `ch` becomes the empty string; every string
comparison of the dispatch then fails, but the membership test
`ch in "-+.0123456789"` is TRUE for the empty string, so the NUMBER branch
runs with an empty accumulator and returns `Token(tell() - 1, NUMBER, "")`. -/
def skipWhitespace (rest : List Nat) (ch : Nat) (p : Nat) :
    Except ScanError (Option Token) × Nat :=
  if isWhitespaceByte ch then
    match rest with
    | [] => (Except.ok (some ⟨p - 1, TokenType.NUMBER, []⟩), p)
    | c :: rest' => skipWhitespace rest' c (p + 1)
  else dispatchToken rest ch p

/-- `next_token` on the unread suffix: an empty suffix means the very first
read fails and the result is `None`; otherwise skip whitespace and dispatch. -/
def nextTokenAux (rest : List Nat) (p : Nat) : Except ScanError (Option Token) × Nat :=
  match rest with
  | [] => (Except.ok none, p)
  | c :: rest' => skipWhitespace rest' c (p + 1)

/-- `next_token` of the tokenizer: the cursor state is the pair of the whole
source and the current position; the result pairs the outcome with the new
cursor position. -/
def nextToken (src : List Nat) (p : Nat) : Except ScanError (Option Token) × Nat :=
  nextTokenAux (src.drop p) p

/-!
Fuel-indexed mirrors of the scanning loops, for the termination claim: each
`while` loop of `next_token` is replayed with an explicit iteration budget,
returning `none` when the budget runs out before the loop exits.  The
sufficiency theorems below show a budget of one more than the number of
unread bytes always suffices, because every loop iteration consumes at least
one byte of the remaining source.
-/

/-- Fuel-indexed NAME loop. -/
def nameScanFuel (fuel : Nat) (rest acc : List Nat) (p : Nat) :
    Option (List Nat × Nat) :=
  match fuel with
  | 0 => none
  | fuel + 1 =>
    match rest with
    | [] => some (acc, p)
    | c :: rest' =>
      if isDelimiterByte c then some (acc, p)
      else nameScanFuel fuel rest' (acc ++ [c]) (p + 1)

/-- Fuel-indexed COMMENT loop. -/
def commentScanFuel (fuel : Nat) (ch : Nat) (rest acc : List Nat) (p : Nat) :
    Option (List Nat × Nat) :=
  match fuel with
  | 0 => none
  | fuel + 1 =>
    if ch = 13 || ch = 10 then some (acc, p - 1)
    else
      match rest with
      | [] => some (acc ++ [ch], p)
      | c :: rest' => commentScanFuel fuel c rest' (acc ++ [ch]) (p + 1)

/-- Fuel-indexed HEX_STRING loop. -/
def hexScanFuel (fuel : Nat) (rest acc : List Nat) (p : Nat) :
    Option (List Nat × Nat) :=
  match fuel with
  | 0 => none
  | fuel + 1 =>
    match rest with
    | [] => some (acc, p)
    | c :: rest' =>
      if c = 62 then some (acc ++ [c], p + 1)
      else hexScanFuel fuel rest' (acc ++ [c]) (p + 1)

/-- Fuel-indexed NUMBER loop. -/
def numberScanFuel (fuel : Nat) (ch : Nat) (rest acc : List Nat) (p : Nat) :
    Option (List Nat × Nat) :=
  match fuel with
  | 0 => none
  | fuel + 1 =>
    if isNumberByte ch then
      match rest with
      | [] => some (acc ++ [ch], p)
      | c :: rest' => numberScanFuel fuel c rest' (acc ++ [ch]) (p + 1)
    else some (acc, p - 1)

/-- Fuel-indexed STRING loop. -/
def stringScanFuel (fuel : Nat) (rest : List Nat) (nesting : Int)
    (acc : List Nat) (p : Nat) : Option (Except ScanError (List Nat × Nat)) :=
  match fuel with
  | 0 => none
  | fuel + 1 =>
    match rest with
    | [] => some (Except.error ScanError.unterminatedString)
    | c :: rest' =>
      if c = 92 then
        match rest' with
        | [] => some (Except.error ScanError.unterminatedString)
        | c2 :: rest'' => stringScanFuel fuel rest'' nesting (acc ++ [92, c2]) (p + 2)
      else
        let nesting' : Int :=
          if c = 40 then nesting + 1 else if c = 41 then nesting - 1 else nesting
        if nesting' = 0 then some (Except.ok (acc ++ [c], p + 1))
        else stringScanFuel fuel rest' nesting' (acc ++ [c]) (p + 1)

/-- Fuel-indexed OTHER loop. -/
def otherScanFuel (fuel : Nat) (ch : Nat) (rest acc : List Nat) (p : Nat) :
    Option (List Nat × Nat) :=
  match fuel with
  | 0 => none
  | fuel + 1 =>
    if isDelimiterByte ch then some (acc, p - 1)
    else
      match rest with
      | [] => some (acc ++ [ch], p)
      | c :: rest' => otherScanFuel fuel c rest' (acc ++ [ch]) (p + 1)

/-- Fuel-indexed dispatch: not itself a loop, it hands the same budget to
whichever scanning loop runs. -/
def dispatchTokenFuel (fuel : Nat) (rest : List Nat) (ch : Nat) (p : Nat) :
    Option (Except ScanError (Option Token) × Nat) :=
  if ch = 91 then
    some (Except.ok (some ⟨p - 1, TokenType.START_ARRAY, [91]⟩), p)
  else if ch = 93 then
    some (Except.ok (some ⟨p - 1, TokenType.END_ARRAY, [93]⟩), p)
  else if ch = 47 then
    match nameScanFuel fuel rest [47] p with
    | none => none
    | some r => some (Except.ok (some ⟨p - 1, TokenType.NAME, r.1⟩), r.2)
  else if ch = 62 then
    match rest with
    | [] => some (Except.error ScanError.malformedDictionaryClose, p)
    | c :: _ =>
      if c = 62 then some (Except.ok (some ⟨p - 1, TokenType.END_DICT, [62, 62]⟩), p + 1)
      else some (Except.error ScanError.malformedDictionaryClose, p + 1)
  else if ch = 37 then
    match commentScanFuel fuel 37 rest [] p with
    | none => none
    | some r => some (Except.ok (some ⟨p - 1, TokenType.COMMENT, r.1⟩), r.2)
  else if ch = 60 then
    match rest with
    | [] =>
      match hexScanFuel fuel [] [60] p with
      | none => none
      | some r => some (Except.ok (some ⟨p - 1, TokenType.HEX_STRING, r.1⟩), r.2)
    | c2 :: rest' =>
      if c2 = 60 then some (Except.ok (some ⟨p - 1, TokenType.START_DICT, [60, 60]⟩), p + 1)
      else if c2 = 62 then some (Except.ok (some ⟨p - 1, TokenType.HEX_STRING, [60, 62]⟩), p + 1)
      else
        match hexScanFuel fuel rest' [60, c2] (p + 1) with
        | none => none
        | some r => some (Except.ok (some ⟨p - 1, TokenType.HEX_STRING, r.1⟩), r.2)
  else if isNumberByte ch then
    match numberScanFuel fuel ch rest [] p with
    | none => none
    | some r => some (Except.ok (some ⟨p - 1, TokenType.NUMBER, r.1⟩), r.2)
  else if ch = 40 then
    match stringScanFuel fuel rest 1 [40] p with
    | none => none
    | some (Except.ok (txt, p')) => some (Except.ok (some ⟨p - 1, TokenType.STRING, txt⟩), p')
    | some (Except.error e) => some (Except.error e, p)
  else
    match otherScanFuel fuel ch rest [] p with
    | none => none
    | some r => some (Except.ok (some ⟨p - 1, TokenType.OTHER, r.1⟩), r.2)

/-- Fuel-indexed whitespace-skip loop. -/
def skipWhitespaceFuel (fuel : Nat) (rest : List Nat) (ch : Nat) (p : Nat) :
    Option (Except ScanError (Option Token) × Nat) :=
  match fuel with
  | 0 => none
  | fuel + 1 =>
    if isWhitespaceByte ch then
      match rest with
      | [] => some (Except.ok (some ⟨p - 1, TokenType.NUMBER, []⟩), p)
      | c :: rest' => skipWhitespaceFuel fuel rest' c (p + 1)
    else dispatchTokenFuel (fuel + 1) rest ch p

/-- Fuel-indexed `next_token`: `none` means some internal loop exceeded its
iteration budget. -/
def nextTokenFuel (fuel : Nat) (src : List Nat) (p : Nat) :
    Option (Except ScanError (Option Token) × Nat) :=
  match src.drop p with
  | [] => some (Except.ok none, p)
  | c :: rest' => skipWhitespaceFuel fuel rest' c (p + 1)

/-- Termination fact for `next_non_comment_token`: the comment loop never
moves the cursor back past the position just before the byte already read. -/
def commentScan_snd_ge : ∀ (rest : List Nat) (ch : Nat) (acc : List Nat) (p : Nat),
    p - 1 ≤ (commentScan ch rest acc p).2 := by
  intro rest
  induction rest with
  | nil =>
    intro ch acc p
    unfold commentScan
    split <;> simp
  | cons c rest' ih =>
    intro ch acc p
    unfold commentScan
    split
    · simp
    · have h := ih c (acc ++ [ch]) (p + 1)
      simp only [Nat.add_sub_cancel] at h
      exact Nat.le_trans (Nat.sub_le p 1) h

/-- Termination fact: a comment scan entered on the `%` byte itself cannot
take the push-back exit on its first iteration, so the cursor never ends up
before the entry position. -/
def commentScan_entry_ge : ∀ (rest acc : List Nat) (p : Nat),
    p ≤ (commentScan 37 rest acc p).2 := by
  intro rest acc p
  cases rest with
  | nil => simp [commentScan]
  | cons c rest' =>
    have h := commentScan_snd_ge rest' c (acc ++ [37]) (p + 1)
    simp only [Nat.add_sub_cancel] at h
    simpa [commentScan] using h

/-- Termination fact: a Comment token produced by the dispatch leaves the
cursor at or after the dispatch position. -/
def dispatchToken_comment_pos : ∀ (rest : List Nat) (ch : Nat) (p : Nat)
    (t : Token) (p' : Nat),
    dispatchToken rest ch p = (Except.ok (some t), p') →
    t.token_type = TokenType.COMMENT → p ≤ p' := by
  intro rest ch p t p' h hc
  unfold dispatchToken at h
  repeat' split at h
  all_goals
    simp only [Prod.mk.injEq, Except.ok.injEq, Option.some.injEq,
      reduceCtorEq, false_and, and_false] at h
  all_goals (obtain ⟨ht, hp⟩ := h; subst ht; subst hp)
  all_goals (try (simp at hc))
  exact commentScan_entry_ge rest [] p

/-- Termination fact: lifting `dispatchToken_comment_pos` through the
whitespace-skip loop. -/
def skipWhitespace_comment_pos : ∀ (rest : List Nat) (ch : Nat) (p : Nat)
    (t : Token) (p' : Nat),
    skipWhitespace rest ch p = (Except.ok (some t), p') →
    t.token_type = TokenType.COMMENT → p ≤ p' := by
  intro rest
  induction rest with
  | nil =>
    intro ch p t p' h hc
    unfold skipWhitespace at h
    split at h
    · simp only [Prod.mk.injEq, Except.ok.injEq, Option.some.injEq] at h
      obtain ⟨ht, hp⟩ := h
      subst ht; subst hp
      simp at hc
    · exact dispatchToken_comment_pos [] ch p t p' h hc
  | cons c rest' ih =>
    intro ch p t p' h hc
    unfold skipWhitespace at h
    split at h
    · exact Nat.le_trans (Nat.le_succ p) (ih c (p + 1) t p' h hc)
    · exact dispatchToken_comment_pos (c :: rest') ch p t p' h hc

/-- Termination fact: a call of `next_token` that produces a Comment token
strictly advances the cursor, and can only happen inside the source. -/
def nextToken_comment_progress : ∀ (src : List Nat) (p : Nat) (t : Token) (p' : Nat),
    nextToken src p = (Except.ok (some t), p') →
    t.token_type = TokenType.COMMENT → p < p' ∧ p < src.length := by
  intro src p t p' h hc
  unfold nextToken nextTokenAux at h
  split at h
  · rename_i heq
    simp only [Prod.mk.injEq, Except.ok.injEq, reduceCtorEq, false_and] at h
  · rename_i c rest heq
    have hlen : p < src.length := by
      by_contra hge
      rw [List.drop_eq_nil_of_le (Nat.le_of_not_lt hge)] at heq
      cases heq
    have hle := skipWhitespace_comment_pos rest c (p + 1) t p' h hc
    exact ⟨Nat.lt_of_lt_of_le (Nat.lt_succ_self p) hle, hlen⟩

/-- `next_non_comment_token`: call `next_token` and keep calling it while the
produced token is a Comment; return the first non-comment outcome (`None`,
an error, or the token).  Recursion is well-founded because every discarded
comment strictly advances the cursor. -/
def nextNonCommentToken (src : List Nat) (p : Nat) :
    Except ScanError (Option Token) × Nat :=
  match h : nextToken src p with
  | (Except.ok (some t), p') =>
    if hc : t.token_type = TokenType.COMMENT then nextNonCommentToken src p'
    else (Except.ok (some t), p')
  | (Except.ok none, p') => (Except.ok none, p')
  | (Except.error e, p') => (Except.error e, p')
termination_by src.length + 1 - p
decreasing_by
  have hp := nextToken_comment_progress src p t p' h hc
  omega

/-! ### General helpers about the cursor model -/

/-- Reading at a valid position splits the unread suffix. -/
theorem drop_eq_cons_get? (src : List Nat) (p b : Nat) (h : src.get? p = some b) :
    src.drop p = b :: src.drop (p + 1) := by
  induction src generalizing p with
  | nil => simp at h
  | cons a l ih =>
    cases p with
    | zero => simp_all
    | succ p' =>
      simp only [List.get?] at h
      simpa using ih p' h

/-- A position with a byte is inside the source. -/
theorem lt_length_of_get? (src : List Nat) (p b : Nat) (h : src.get? p = some b) :
    p < src.length := by
  by_contra hge
  rw [List.get?_eq_none.mpr (Nat.le_of_not_lt hge)] at h
  cases h

/-- Inside the source, `get?` returns the `getD` value. -/
theorem get?_eq_some_getD (src : List Nat) (p : Nat) (h : p < src.length) :
    src.get? p = some (src.getD p 0) := by
  cases hg : src.get? p with
  | none => exact absurd (List.get?_eq_none.mp hg) (Nat.not_le_of_lt h)
  | some b => simp [List.getD_eq_getElem?_getD, ← List.get?_eq_getElem?, hg]

/-! ### Accumulator growth of the scanning loops -/

theorem nameScan_acc_le (rest : List Nat) : ∀ (acc : List Nat) (p : Nat),
    acc.length ≤ (nameScan rest acc p).1.length := by
  induction rest with
  | nil => intro acc p; exact Nat.le_refl _
  | cons c rest' ih =>
    intro acc p
    unfold nameScan
    split
    · exact Nat.le_refl _
    · exact Nat.le_trans (by simp) (ih (acc ++ [c]) (p + 1))

theorem commentScan_acc_le (rest : List Nat) : ∀ (ch : Nat) (acc : List Nat) (p : Nat),
    acc.length ≤ (commentScan ch rest acc p).1.length := by
  induction rest with
  | nil =>
    intro ch acc p
    unfold commentScan
    split
    · exact Nat.le_refl _
    · simp
  | cons c rest' ih =>
    intro ch acc p
    unfold commentScan
    split
    · exact Nat.le_refl _
    · exact Nat.le_trans (by simp) (ih c (acc ++ [ch]) (p + 1))

theorem commentScan_entry_len (rest acc : List Nat) (p : Nat) :
    1 ≤ (commentScan 37 rest (acc ++ [37]) p).1.length := by
  have h := commentScan_acc_le rest 37 (acc ++ [37]) p
  simp at h
  omega

theorem hexScan_acc_le (rest : List Nat) : ∀ (acc : List Nat) (p : Nat),
    acc.length ≤ (hexScan rest acc p).1.length := by
  induction rest with
  | nil => intro acc p; exact Nat.le_refl _
  | cons c rest' ih =>
    intro acc p
    unfold hexScan
    split
    · simp
    · exact Nat.le_trans (by simp) (ih (acc ++ [c]) (p + 1))

/-- Step equation: end of stream fails the string scan. -/
theorem stringScan_nil (nesting : Int) (acc : List Nat) (p : Nat) :
    stringScan [] nesting acc p = Except.error ScanError.unterminatedString := rfl

/-- Step equation: a backslash as last byte fails the string scan. -/
theorem stringScan_backslash_nil (nesting : Int) (acc : List Nat) (p : Nat) :
    stringScan [92] nesting acc p = Except.error ScanError.unterminatedString := rfl

/-- Step equation: a backslash consumes the following byte verbatim and
leaves the nesting counter unchanged. -/
theorem stringScan_backslash (c2 : Nat) (rest : List Nat) (nesting : Int)
    (acc : List Nat) (p : Nat) :
    stringScan (92 :: c2 :: rest) nesting acc p
      = stringScan rest nesting (acc ++ [92, c2]) (p + 2) := rfl

/-- Step equation: a non-backslash byte updates the nesting counter, is
appended, and the loop stops exactly when the counter reaches 0. -/
theorem stringScan_step (c : Nat) (rest : List Nat) (nesting : Int)
    (acc : List Nat) (p : Nat) (h92 : c ≠ 92) :
    stringScan (c :: rest) nesting acc p =
      if (if c = 40 then nesting + 1 else if c = 41 then nesting - 1 else nesting) = 0
      then Except.ok (acc ++ [c], p + 1)
      else stringScan rest
        (if c = 40 then nesting + 1 else if c = 41 then nesting - 1 else nesting)
        (acc ++ [c]) (p + 1) := by
  conv_lhs => rw [stringScan.eq_def]
  simp [if_neg h92]

/-- Combined facts about the literal-string loop: the only error it can
produce is `unterminatedString`; on success the text strictly extends the
accumulator, and when the nesting counter is positive the text ends with
the closing `)` byte 41. -/
theorem stringScan_main : ∀ (n : Nat) (rest : List Nat), rest.length = n →
    ∀ (nesting : Int) (acc : List Nat) (p : Nat),
    (∀ e, stringScan rest nesting acc p = Except.error e →
      e = ScanError.unterminatedString) ∧
    (∀ txt q, stringScan rest nesting acc p = Except.ok (txt, q) →
      acc.length < txt.length ∧ (1 ≤ nesting → txt.getLast? = some 41)) := by
  intro n
  induction n using Nat.strong_induction_on with
  | _ n ih =>
    intro rest hlen nesting acc p
    cases rest with
    | nil =>
      refine ⟨fun e he => ?_, fun txt q h => ?_⟩
      · rw [stringScan_nil] at he
        exact (Except.error.injEq _ _ ▸ he).symm
      · rw [stringScan_nil] at h
        cases h
    | cons c rest' =>
      by_cases h92 : c = 92
      · subst h92
        cases rest' with
        | nil =>
          refine ⟨fun e he => ?_, fun txt q h => ?_⟩
          · rw [stringScan_backslash_nil] at he
            exact (Except.error.injEq _ _ ▸ he).symm
          · rw [stringScan_backslash_nil] at h
            cases h
        | cons c2 rest'' =>
          rw [stringScan_backslash]
          have hrec := ih rest''.length (by simp at hlen; omega) rest'' rfl
            nesting (acc ++ [92, c2]) (p + 2)
          refine ⟨hrec.1, fun txt q h => ?_⟩
          have hr := hrec.2 txt q h
          refine ⟨?_, hr.2⟩
          have := hr.1
          simp only [List.length_append, List.length_cons] at this
          omega
      · rw [stringScan_step c rest' nesting acc p h92]
        by_cases h0 : (if c = 40 then nesting + 1
            else if c = 41 then nesting - 1 else nesting) = 0
        · rw [if_pos h0]
          refine ⟨fun e he => ?_, fun txt q h => ?_⟩
          · cases he
          · simp only [Except.ok.injEq, Prod.mk.injEq] at h
            obtain ⟨h1, _⟩ := h
            subst h1
            refine ⟨by simp, fun hn => ?_⟩
            have hc41 : c = 41 := by
              by_cases c40 : c = 40
              · simp [c40] at h0; omega
              · by_cases c41 : c = 41
                · exact c41
                · simp [c40, c41] at h0; omega
            subst hc41
            simp
        · rw [if_neg h0]
          have hrec := ih rest'.length (by simp at hlen; omega) rest' rfl
            (if c = 40 then nesting + 1 else if c = 41 then nesting - 1 else nesting)
            (acc ++ [c]) (p + 1)
          refine ⟨hrec.1, fun txt q h => ?_⟩
          have hr := hrec.2 txt q h
          refine ⟨?_, fun hn => ?_⟩
          · have := hr.1
            simp only [List.length_append, List.length_cons] at this
            omega
          · apply hr.2
            by_cases c40 : c = 40
            · simp [c40] at h0 ⊢; omega
            · by_cases c41 : c = 41
              · simp [c40, c41] at h0 ⊢; omega
              · simp [c40, c41] at h0 ⊢; omega

/-! ### Step equations of the scanning loops (all definitional) -/

theorem nameScan_nil (acc : List Nat) (p : Nat) : nameScan [] acc p = (acc, p) := rfl

theorem nameScan_cons (c : Nat) (rest acc : List Nat) (p : Nat) :
    nameScan (c :: rest) acc p =
      if isDelimiterByte c then (acc, p) else nameScan rest (acc ++ [c]) (p + 1) := rfl

theorem commentScan_nil (ch : Nat) (acc : List Nat) (p : Nat) :
    commentScan ch [] acc p =
      if ch = 13 || ch = 10 then (acc, p - 1) else (acc ++ [ch], p) := rfl

theorem commentScan_cons (ch c : Nat) (rest acc : List Nat) (p : Nat) :
    commentScan ch (c :: rest) acc p =
      if ch = 13 || ch = 10 then (acc, p - 1)
      else commentScan c rest (acc ++ [ch]) (p + 1) := rfl

theorem hexScan_nil (acc : List Nat) (p : Nat) : hexScan [] acc p = (acc, p) := rfl

theorem hexScan_cons (c : Nat) (rest acc : List Nat) (p : Nat) :
    hexScan (c :: rest) acc p =
      if c = 62 then (acc ++ [c], p + 1) else hexScan rest (acc ++ [c]) (p + 1) := rfl

theorem numberScan_nil (ch : Nat) (acc : List Nat) (p : Nat) :
    numberScan ch [] acc p =
      if isNumberByte ch then (acc ++ [ch], p) else (acc, p - 1) := rfl

theorem numberScan_cons (ch c : Nat) (rest acc : List Nat) (p : Nat) :
    numberScan ch (c :: rest) acc p =
      if isNumberByte ch then numberScan c rest (acc ++ [ch]) (p + 1)
      else (acc, p - 1) := rfl

theorem otherScan_nil (ch : Nat) (acc : List Nat) (p : Nat) :
    otherScan ch [] acc p =
      if isDelimiterByte ch then (acc, p - 1) else (acc ++ [ch], p) := rfl

theorem otherScan_cons (ch c : Nat) (rest acc : List Nat) (p : Nat) :
    otherScan ch (c :: rest) acc p =
      if isDelimiterByte ch then (acc, p - 1)
      else otherScan c rest (acc ++ [ch]) (p + 1) := rfl

theorem skipWhitespace_nil (ch : Nat) (p : Nat) :
    skipWhitespace [] ch p =
      if isWhitespaceByte ch then (Except.ok (some ⟨p - 1, TokenType.NUMBER, []⟩), p)
      else dispatchToken [] ch p := rfl

theorem skipWhitespace_cons (c : Nat) (rest : List Nat) (ch : Nat) (p : Nat) :
    skipWhitespace (c :: rest) ch p =
      if isWhitespaceByte ch then skipWhitespace rest c (p + 1)
      else dispatchToken (c :: rest) ch p := rfl

theorem nextTokenAux_nil (p : Nat) : nextTokenAux [] p = (Except.ok none, p) := rfl

theorem nextTokenAux_cons (c : Nat) (rest : List Nat) (p : Nat) :
    nextTokenAux (c :: rest) p = skipWhitespace rest c (p + 1) := rfl

/-! ### Non-empty text and other invariants of the loops -/

theorem nameScan_ne_nil (rest acc : List Nat) (p : Nat) (hacc : acc ≠ []) :
    (nameScan rest acc p).1 ≠ [] := by
  intro hh
  have hle := nameScan_acc_le rest acc p
  rw [hh] at hle
  simp at hle
  exact hacc hle

theorem hexScan_ne_nil (rest acc : List Nat) (p : Nat) (hacc : acc ≠ []) :
    (hexScan rest acc p).1 ≠ [] := by
  intro hh
  have hle := hexScan_acc_le rest acc p
  rw [hh] at hle
  simp at hle
  exact hacc hle

theorem commentScan_ne_nil (ch : Nat) (rest acc : List Nat) (p : Nat)
    (h13 : ch ≠ 13) (h10 : ch ≠ 10) : (commentScan ch rest acc p).1 ≠ [] := by
  intro hh
  cases rest with
  | nil =>
    rw [commentScan_nil, if_neg (by simp [h13, h10])] at hh
    simp at hh
  | cons c rest' =>
    rw [commentScan_cons, if_neg (by simp [h13, h10])] at hh
    have hle := commentScan_acc_le rest' c (acc ++ [ch]) (p + 1)
    rw [hh] at hle
    simp at hle

theorem stringScan_ok_text_ne_nil (rest : List Nat) (nesting : Int)
    (acc : List Nat) (p : Nat) (txt : List Nat) (q : Nat)
    (h : stringScan rest nesting acc p = Except.ok (txt, q)) : txt ≠ [] := by
  intro hh
  have hlt := ((stringScan_main rest.length rest rfl nesting acc p).2 txt q h).1
  rw [hh] at hlt
  simp at hlt

/-- Every token the dispatch produces carries the byte offset of the lexeme
start, `tell() - 1` at dispatch time. -/
theorem dispatchToken_byte_offset (rest : List Nat) (ch p : Nat) (t : Token)
    (p' : Nat) (h : dispatchToken rest ch p = (Except.ok (some t), p')) :
    t.byte_offset = p - 1 := by
  unfold dispatchToken at h
  repeat' split at h
  all_goals
    simp only [Prod.mk.injEq, Except.ok.injEq, Option.some.injEq,
      reduceCtorEq, false_and, and_false] at h
  all_goals (obtain ⟨ht', hp'⟩ := h; subst ht'; subst hp')
  all_goals rfl

/-- A token of the dispatch with empty text is an Other or Number token. -/
theorem dispatchToken_empty_text (rest : List Nat) (ch p : Nat) (t : Token)
    (p' : Nat) (h : dispatchToken rest ch p = (Except.ok (some t), p'))
    (htext : t.text = []) :
    t.token_type = TokenType.OTHER ∨ t.token_type = TokenType.NUMBER := by
  unfold dispatchToken at h
  repeat' split at h
  all_goals
    simp only [Prod.mk.injEq, Except.ok.injEq, Option.some.injEq,
      reduceCtorEq, false_and, and_false] at h
  all_goals (obtain ⟨ht', hp'⟩ := h; subst ht'; subst hp')
  all_goals (try (simp at htext))
  all_goals first
    | (left; rfl)
    | (right; rfl)
    | (exact absurd htext (nameScan_ne_nil _ _ _ (by simp)))
    | (exact absurd htext (hexScan_ne_nil _ _ _ (by simp)))
    | (exact absurd htext (commentScan_ne_nil _ _ _ _ (by decide) (by decide)))
    | (exact absurd htext (stringScan_ok_text_ne_nil _ _ _ _ _ _ (by assumption)))

/-- A String token of the dispatch has text ending in the `)` byte. -/
theorem dispatchToken_string_last (rest : List Nat) (ch p : Nat) (t : Token)
    (p' : Nat) (h : dispatchToken rest ch p = (Except.ok (some t), p'))
    (hstr : t.token_type = TokenType.STRING) :
    t.text.getLast? = some 41 := by
  unfold dispatchToken at h
  repeat' split at h
  all_goals
    simp only [Prod.mk.injEq, Except.ok.injEq, Option.some.injEq,
      reduceCtorEq, false_and, and_false] at h
  all_goals (obtain ⟨ht', hp'⟩ := h; subst ht'; subst hp')
  all_goals (try (simp at hstr))
  have hmain := (stringScan_main rest.length rest rfl 1 [40] p).2 _ _ (by assumption)
  exact hmain.2 (by norm_num)

/-- Lifting `dispatchToken_empty_text` through the whitespace skip: the
end-of-stream-during-skip token is a Number token with empty text. -/
theorem skipWhitespace_empty_text (rest : List Nat) : ∀ (ch p : Nat) (t : Token)
    (p' : Nat), skipWhitespace rest ch p = (Except.ok (some t), p') →
    t.text = [] →
    t.token_type = TokenType.OTHER ∨ t.token_type = TokenType.NUMBER := by
  induction rest with
  | nil =>
    intro ch p t p' h htext
    rw [skipWhitespace_nil] at h
    split_ifs at h
    · simp only [Prod.mk.injEq, Except.ok.injEq, Option.some.injEq] at h
      obtain ⟨ht', hp'⟩ := h
      subst ht'
      right
      rfl
    · exact dispatchToken_empty_text [] ch p t p' h htext
  | cons c rest' ih =>
    intro ch p t p' h htext
    rw [skipWhitespace_cons] at h
    split_ifs at h
    · exact ih c (p + 1) t p' h htext
    · exact dispatchToken_empty_text (c :: rest') ch p t p' h htext

/-- Lifting `dispatchToken_string_last` through the whitespace skip. -/
theorem skipWhitespace_string_last (rest : List Nat) : ∀ (ch p : Nat) (t : Token)
    (p' : Nat), skipWhitespace rest ch p = (Except.ok (some t), p') →
    t.token_type = TokenType.STRING → t.text.getLast? = some 41 := by
  induction rest with
  | nil =>
    intro ch p t p' h hstr
    rw [skipWhitespace_nil] at h
    split_ifs at h
    · simp only [Prod.mk.injEq, Except.ok.injEq, Option.some.injEq] at h
      obtain ⟨ht', hp'⟩ := h
      subst ht'
      simp at hstr
    · exact dispatchToken_string_last [] ch p t p' h hstr
  | cons c rest' ih =>
    intro ch p t p' h hstr
    rw [skipWhitespace_cons] at h
    split_ifs at h
    · exact ih c (p + 1) t p' h hstr
    · exact dispatchToken_string_last (c :: rest') ch p t p' h hstr

/-! ### Claim theorems -/

/-- C1 (code bug evidence): on the one-byte source `" "` (a single space,
all of whose bytes are whitespace), `next_token` does not return `None` as
its docstring and the specification require.  The whitespace skip reaches
end of stream with `ch = ""`, and since the Python membership test
`"" in "-+.0123456789"` is true, the NUMBER branch runs and returns a
`Token(0, NUMBER, "")`. -/
theorem c1_whitespace_eof_returns_empty_number_token :
    nextToken [32] 0 = (Except.ok (some ⟨0, TokenType.NUMBER, []⟩), 1) ∧
    (nextToken [32] 0).1 ≠ Except.ok none := by
  constructor
  · rfl
  · intro h
    cases h

/-- C2 counterexample: on the one-byte source `")"`, `next_token` returns an
Other token whose text is empty, refuting the invariant that every returned
token has non-empty text. -/
theorem c2_counterexample_rparen_empty_text :
    nextToken [41] 0 = (Except.ok (some ⟨0, TokenType.OTHER, []⟩), 0) ∧
    (⟨0, TokenType.OTHER, []⟩ : Token).text = [] := ⟨rfl, rfl⟩

/-- C2 (amended): every token `next_token` returns with empty text is an
Other token (produced at a delimiter byte with no dedicated dispatch case)
or a Number token (produced when the source runs out during the whitespace
skip); tokens of every other kind have non-empty text. -/
theorem c2_empty_text_only_other_or_number (src : List Nat) (p : Nat)
    (t : Token) (p' : Nat) (h : nextToken src p = (Except.ok (some t), p'))
    (htext : t.text = []) :
    t.token_type = TokenType.OTHER ∨ t.token_type = TokenType.NUMBER := by
  unfold nextToken at h
  cases hd : src.drop p with
  | nil =>
    rw [hd, nextTokenAux_nil] at h
    simp at h
  | cons c rest =>
    rw [hd, nextTokenAux_cons] at h
    exact skipWhitespace_empty_text rest c (p + 1) t p' h htext

/-- C2 witness: the amended statement applied to the concrete source `")"`. -/
theorem c2_empty_text_witness :
    TokenType.OTHER = TokenType.OTHER ∨ TokenType.OTHER = TokenType.NUMBER :=
  c2_empty_text_only_other_or_number [41] 0 ⟨0, TokenType.OTHER, []⟩ 0 rfl rfl

/-- Consecutive whitespace: `next_token` from a whitespace byte position
equals `next_token` from the following position, provided that following
position is still inside the source. -/
theorem nextToken_ws_step (src : List Nat) (p c c' : Nat)
    (h1 : src.get? p = some c) (hw : isWhitespaceByte c = true)
    (h2 : src.get? (p + 1) = some c') :
    nextToken src p = nextToken src (p + 1) := by
  unfold nextToken
  rw [drop_eq_cons_get? src p c h1, drop_eq_cons_get? src (p + 1) c' h2,
    nextTokenAux_cons, nextTokenAux_cons, skipWhitespace_cons, if_pos hw]

/-- Whitespace-skip: `next_token` at `p` equals `next_token` at `k` when all
bytes in `[p, k)` are whitespace and `k` holds a byte. -/
theorem nextToken_skip_to (src : List Nat) (k bk : Nat)
    (hk : src.get? k = some bk) : ∀ (p : Nat), p ≤ k →
    (∀ i, p ≤ i → i < k → isWhitespaceByte (src.getD i 0) = true) →
    nextToken src p = nextToken src k := by
  have hklen : k < src.length := lt_length_of_get? src k bk hk
  intro p hpk hws
  obtain ⟨n, hn⟩ : ∃ n, k - p = n := ⟨_, rfl⟩
  induction n generalizing p with
  | zero =>
    have : p = k := by omega
    subst this
    rfl
  | succ n ihn =>
    have hplt : p < k := by omega
    have hplen : p < src.length := Nat.lt_trans hplt hklen
    have hp1len : p + 1 ≤ k := hplt
    have hp1 : p + 1 < src.length := Nat.lt_of_le_of_lt hp1len hklen
    rw [nextToken_ws_step src p _ _ (get?_eq_some_getD src p hplen)
      (hws p (Nat.le_refl p) hplt) (get?_eq_some_getD src (p + 1) hp1)]
    exact ihn (p + 1) hp1len (fun i hi1 hi2 => hws i (by omega) hi2) (by omega)

/-- A non-whitespace byte goes straight to the dispatch. -/
theorem skipWhitespace_not_ws (rest : List Nat) (ch p : Nat)
    (hnw : isWhitespaceByte ch = false) :
    skipWhitespace rest ch p = dispatchToken rest ch p := by
  unfold skipWhitespace
  rw [hnw]
  simp

/-- The dispatch at a `)` byte: the OTHER branch starts with a delimiter,
keeps the empty accumulator, and pushes the byte back. -/
theorem nextToken_at_rparen (src : List Nat) (k : Nat)
    (hk : src.get? k = some 41) :
    nextToken src k = (Except.ok (some ⟨k, TokenType.OTHER, []⟩), k) := by
  unfold nextToken
  rw [drop_eq_cons_get? src k 41 hk, nextTokenAux_cons,
    skipWhitespace_not_ws _ _ _ (by decide)]
  unfold dispatchToken
  norm_num [isNumberByte]
  cases hd : src.drop (k + 1) with
  | nil => rw [otherScan_nil, if_pos (by decide)]; simp
  | cons c rest => rw [otherScan_cons, if_pos (by decide)]; simp

/-- C3: when every byte from the cursor up to position `k` is whitespace and
the byte at `k` is `)` (a delimiter with no dedicated dispatch case),
`next_token` returns an Other token with empty text at offset `k`, leaves
the cursor back at `k` (the `)` is pushed back unconsumed), and a repeated
call returns the very same empty token again without progress. -/
theorem c3_rparen_empty_other_no_progress (src : List Nat) (p k : Nat)
    (hpk : p ≤ k)
    (hws : ∀ i, p ≤ i → i < k → isWhitespaceByte (src.getD i 0) = true)
    (hk : src.get? k = some 41) :
    nextToken src p = (Except.ok (some ⟨k, TokenType.OTHER, []⟩), k) ∧
    nextToken src k = (Except.ok (some ⟨k, TokenType.OTHER, []⟩), k) := by
  have hbase := nextToken_at_rparen src k hk
  exact ⟨(nextToken_skip_to src k 41 hk p hpk hws).trans hbase, hbase⟩

/-- C3 witness: the source `" )"` (a space, then `)`), scanned from 0. -/
theorem c3_witness :
    nextToken [32, 41] 0 = (Except.ok (some ⟨1, TokenType.OTHER, []⟩), 1) ∧
    nextToken [32, 41] 1 = (Except.ok (some ⟨1, TokenType.OTHER, []⟩), 1) :=
  c3_rparen_empty_other_no_progress [32, 41] 0 1 (by omega)
    (fun i h1 h2 => by
      have : i = 0 := by omega
      subst this
      decide)
    rfl

/-- Dispatch step at the `>` byte (definitional). -/
theorem dispatchToken_gt (rest : List Nat) (p : Nat) :
    dispatchToken rest 62 p =
      match rest with
      | [] => (Except.error ScanError.malformedDictionaryClose, p)
      | c :: _ =>
        if c = 62 then (Except.ok (some ⟨p - 1, TokenType.END_DICT, [62, 62]⟩), p + 1)
        else (Except.error ScanError.malformedDictionaryClose, p + 1) := rfl

/-- C4 counterexample: the dictionary-close failure is not surfaced as a
distinct, identifiable error.  At the concrete inputs `">"` and `"(a"` both
fatal conditions of `next_token` fire — the dictionary-close assert and the
unterminated-string assert — and both assert sites raise the identical
bare, argument-less `AssertionError`, so the caller cannot tell the
dictionary-close condition apart from the other fatal condition: it is a
generic failure, refuting the claim's distinctness clause. -/
theorem c4_counterexample_same_assertion_error :
    (nextToken [62] 0).1 = Except.error ScanError.malformedDictionaryClose ∧
    (nextToken [40, 97] 0).1 = Except.error ScanError.unterminatedString ∧
    raisedException ScanError.malformedDictionaryClose = PyException.assertionError ∧
    raisedException ScanError.unterminatedString = PyException.assertionError :=
  ⟨rfl, rfl, rfl, rfl⟩

/-- C4 (amended): a lexeme starting with `>` yields an EndDict token `">>"`
exactly when the immediately following read yields a second `>`; any other
follow byte, and end of stream, make the call fail at the dictionary-close
assert site rather than return a truncated token — but that failure reaches
the caller as a bare `AssertionError`, the same generic exception class the
unterminated-string condition raises, not as a distinct, identifiable
error. -/
theorem c4_end_dict_requires_double_gt (src : List Nat) (p : Nat)
    (h62 : src.get? p = some 62) :
    (src.get? (p + 1) = some 62 →
      nextToken src p = (Except.ok (some ⟨p, TokenType.END_DICT, [62, 62]⟩), p + 2)) ∧
    (∀ b, src.get? (p + 1) = some b → b ≠ 62 →
      (nextToken src p).1 = Except.error ScanError.malformedDictionaryClose) ∧
    (src.get? (p + 1) = none →
      (nextToken src p).1 = Except.error ScanError.malformedDictionaryClose) ∧
    raisedException ScanError.malformedDictionaryClose
      = raisedException ScanError.unterminatedString := by
  have hstep : nextToken src p = dispatchToken (src.drop (p + 1)) 62 (p + 1) := by
    unfold nextToken
    rw [drop_eq_cons_get? src p 62 h62, nextTokenAux_cons,
      skipWhitespace_not_ws _ _ _ (by decide)]
  refine ⟨fun hb => ?_, fun b hb hb62 => ?_, fun hnone => ?_, rfl⟩
  · rw [hstep, drop_eq_cons_get? src (p + 1) 62 hb, dispatchToken_gt]
    simp
  · rw [hstep, drop_eq_cons_get? src (p + 1) b hb, dispatchToken_gt]
    simp [hb62]
  · rw [hstep, List.drop_eq_nil_of_le (List.get?_eq_none.mp hnone),
      dispatchToken_gt]

/-- C4 witness: the source `">"` alone fails at the dictionary-close assert
site. -/
theorem c4_witness :
    (nextToken [62] 0).1 = Except.error ScanError.malformedDictionaryClose :=
  (c4_end_dict_requires_double_gt [62] 0 rfl).2.2.1 rfl

/-- C5: a literal-string scan that reaches end of stream before the nesting
counter returns to 0 — including a scan ending on a trailing unconsumed
backslash — fails with the UnterminatedString error; the string loop can
produce no other error, and `next_token` never returns a partial String
token: every String token's text ends with the closing `)`. -/
theorem c5_unterminated_string_fatal :
    (nextToken [40, 97, 98, 99] 0).1 = Except.error ScanError.unterminatedString ∧
    (nextToken [40, 97, 98, 92] 0).1 = Except.error ScanError.unterminatedString ∧
    (∀ (rest : List Nat) (nesting : Int) (acc : List Nat) (p : Nat) (e : ScanError),
      stringScan rest nesting acc p = Except.error e →
      e = ScanError.unterminatedString) ∧
    (∀ (src : List Nat) (p : Nat) (t : Token) (p' : Nat),
      nextToken src p = (Except.ok (some t), p') →
      t.token_type = TokenType.STRING →
      t.text ≠ [] ∧ t.text.getLast? = some 41) := by
  refine ⟨rfl, rfl, fun rest nesting acc p e h =>
    (stringScan_main rest.length rest rfl nesting acc p).1 e h,
    fun src p t p' h hstr => ?_⟩
  have hlast : t.text.getLast? = some 41 := by
    unfold nextToken at h
    cases hd : src.drop p with
    | nil =>
      rw [hd, nextTokenAux_nil] at h
      simp at h
    | cons c rest =>
      rw [hd, nextTokenAux_cons] at h
      exact skipWhitespace_string_last rest c (p + 1) t p' h hstr
  refine ⟨fun hnil => ?_, hlast⟩
  rw [hnil] at hlast
  cases hlast

/-- C5 witness: the fourth conjunct applied to the well-formed string source
`"(a)"`. -/
theorem c5_witness :
    (⟨0, TokenType.STRING, [40, 97, 41]⟩ : Token).text ≠ [] ∧
    (⟨0, TokenType.STRING, [40, 97, 41]⟩ : Token).text.getLast? = some 41 :=
  c5_unterminated_string_fatal.2.2.2 [40, 97, 41] 0
    ⟨0, TokenType.STRING, [40, 97, 41]⟩ 3 rfl rfl

/-- The hex loop consumes every remaining byte when none of them is `>`. -/
theorem hexScan_all (rest : List Nat) : ∀ (acc : List Nat) (p : Nat),
    (∀ b ∈ rest, b ≠ 62) → hexScan rest acc p = (acc ++ rest, p + rest.length) := by
  induction rest with
  | nil => intro acc p _; simp [hexScan_nil]
  | cons c rest' ih =>
    intro acc p hno
    rw [hexScan_cons, if_neg (hno c (by simp))]
    rw [ih (acc ++ [c]) (p + 1) (fun b hb => hno b (by simp [hb]))]
    refine Prod.ext ?_ ?_
    · simp
    · simp only [List.length_cons]
      omega

/-- Dispatch step at the `<` byte with a following byte (definitional). -/
theorem dispatchToken_lt_cons (c2 : Nat) (rest' : List Nat) (p : Nat) :
    dispatchToken (c2 :: rest') 60 p =
      (if c2 = 60 then (Except.ok (some ⟨p - 1, TokenType.START_DICT, [60, 60]⟩), p + 1)
       else if c2 = 62 then (Except.ok (some ⟨p - 1, TokenType.HEX_STRING, [60, 62]⟩), p + 1)
       else
        ((Except.ok (some ⟨p - 1, TokenType.HEX_STRING,
          (hexScan rest' [60, c2] (p + 1)).1⟩), (hexScan rest' [60, c2] (p + 1)).2))) := rfl

/-- C6: a hex-string scan (lead `<`, follow byte neither `<` nor `>`) that
reaches end of stream before any closing `>` returns a partial HexString
token holding exactly the bytes consumed so far — the whole remaining
source — instead of failing. -/
theorem c6_hex_truncated_partial_token (src : List Nat) (p b : Nat)
    (h60 : src.get? p = some 60) (hb : src.get? (p + 1) = some b)
    (hb60 : b ≠ 60) (hb62 : b ≠ 62)
    (hrest : ∀ x ∈ src.drop (p + 2), x ≠ 62) :
    nextToken src p =
      (Except.ok (some ⟨p, TokenType.HEX_STRING, src.drop p⟩), src.length) := by
  have hstep : nextToken src p = dispatchToken (src.drop (p + 1)) 60 (p + 1) := by
    unfold nextToken
    rw [drop_eq_cons_get? src p 60 h60, nextTokenAux_cons,
      skipWhitespace_not_ws _ _ _ (by decide)]
  rw [hstep, drop_eq_cons_get? src (p + 1) b hb, dispatchToken_lt_cons,
    if_neg hb60, if_neg hb62, hexScan_all (src.drop (p + 2)) [60, b] (p + 2) hrest]
  have hlen : p + 1 < src.length := lt_length_of_get? src (p + 1) b hb
  have htext : src.drop p = 60 :: b :: src.drop (p + 2) := by
    rw [drop_eq_cons_get? src p 60 h60, drop_eq_cons_get? src (p + 1) b hb]
  rw [htext]
  refine Prod.ext ?_ ?_
  · simp
  · simp only [List.length_drop]
    omega

/-- C6 witness: the source `"<48"` yields the partial HexString `"<48"`. -/
theorem c6_witness :
    nextToken [60, 52, 56] 0 =
      (Except.ok (some ⟨0, TokenType.HEX_STRING, [60, 52, 56]⟩), 3) := by
  have h := c6_hex_truncated_partial_token [60, 52, 56] 0 52 rfl rfl
    (by decide) (by decide) (by decide)
  simpa using h

/-- C7: the literal-string scan follows the balanced-parenthesis rule.  On
the concrete input `"(Hello \(World\))"` one String token covering the whole
input is produced; and in general, a backslash unconditionally consumes and
appends the following byte verbatim without touching the nesting counter, an
unescaped `(` increments the counter, an unescaped `)` decrements it and
terminates the scan exactly when the counter reaches 0 with the closing `)`
included in the text, and any other byte is appended with the counter
unchanged. -/
theorem c7_balanced_parenthesis_scan :
    nextToken [40, 72, 101, 108, 108, 111, 32, 92, 40, 87, 111, 114, 108, 100, 92, 41, 41] 0
      = (Except.ok (some ⟨0, TokenType.STRING,
          [40, 72, 101, 108, 108, 111, 32, 92, 40, 87, 111, 114, 108, 100, 92, 41, 41]⟩), 17) ∧
    (∀ (rest : List Nat) (nesting : Int) (acc : List Nat) (p c2 : Nat),
      stringScan (92 :: c2 :: rest) nesting acc p
        = stringScan rest nesting (acc ++ [92, c2]) (p + 2)) ∧
    (∀ (rest : List Nat) (nesting : Int) (acc : List Nat) (p : Nat),
      1 ≤ nesting →
      stringScan (40 :: rest) nesting acc p
        = stringScan rest (nesting + 1) (acc ++ [40]) (p + 1)) ∧
    (∀ (rest acc : List Nat) (p : Nat),
      stringScan (41 :: rest) 1 acc p = Except.ok (acc ++ [41], p + 1)) ∧
    (∀ (rest : List Nat) (nesting : Int) (acc : List Nat) (p : Nat),
      2 ≤ nesting →
      stringScan (41 :: rest) nesting acc p
        = stringScan rest (nesting - 1) (acc ++ [41]) (p + 1)) ∧
    (∀ (rest : List Nat) (nesting : Int) (acc : List Nat) (p c : Nat),
      c ≠ 92 → c ≠ 40 → c ≠ 41 → 1 ≤ nesting →
      stringScan (c :: rest) nesting acc p
        = stringScan rest nesting (acc ++ [c]) (p + 1)) := by
  refine ⟨rfl, fun rest nesting acc p c2 => stringScan_backslash c2 rest nesting acc p,
    fun rest nesting acc p hn => ?_, fun rest acc p => ?_,
    fun rest nesting acc p hn => ?_, fun rest nesting acc p c h92 h40 h41 hn => ?_⟩
  · have h1 : (if (40 : Nat) = 40 then nesting + 1
        else if (40 : Nat) = 41 then nesting - 1 else nesting) = nesting + 1 := by
      norm_num
    rw [stringScan_step 40 rest nesting acc p (by decide), h1, if_neg (by omega)]
  · have h1 : (if (41 : Nat) = 40 then (1 : Int) + 1
        else if (41 : Nat) = 41 then (1 : Int) - 1 else 1) = 0 := by norm_num
    rw [stringScan_step 41 rest 1 acc p (by decide), h1, if_pos rfl]
  · have h1 : (if (41 : Nat) = 40 then nesting + 1
        else if (41 : Nat) = 41 then nesting - 1 else nesting) = nesting - 1 := by
      norm_num
    rw [stringScan_step 41 rest nesting acc p (by decide), h1, if_neg (by omega)]
  · have h1 : (if c = 40 then nesting + 1
        else if c = 41 then nesting - 1 else nesting) = nesting := by
      simp [h40, h41]
    rw [stringScan_step c rest nesting acc p h92, h1, if_neg (by omega)]

/-- C7 witness: the increment rule applied at a nested `(` inside `"(()"`. -/
theorem c7_witness :
    stringScan [40] 1 [40] 1 = stringScan [] 2 [40, 40] 2 :=
  c7_balanced_parenthesis_scan.2.2.1 [] 1 [40] 1 (by omega)

/-- Rescanning from the byte offset of a produced token reproduces the very
same call: the whitespace-skip loop either ends at a non-whitespace lexeme
start (and rescanning from it dispatches identically), or ends at end of
stream with the empty Number token whose offset is the last whitespace byte
(and rescanning from there replays the same skip-to-end). -/
theorem skipWhitespace_rescan (src : List Nat) : ∀ (rest : List Nat) (c p : Nat)
    (t : Token) (p' : Nat),
    src.drop (p - 1) = c :: rest → 1 ≤ p →
    skipWhitespace rest c p = (Except.ok (some t), p') →
    nextToken src t.byte_offset = (Except.ok (some t), p') := by
  intro rest
  induction rest with
  | nil =>
    intro c p t p' hdrop hp h
    rw [skipWhitespace_nil] at h
    split_ifs at h with hws
    · simp only [Prod.mk.injEq, Except.ok.injEq, Option.some.injEq] at h
      obtain ⟨ht', hp'⟩ := h
      subst ht'
      subst hp'
      unfold nextToken
      rw [hdrop, nextTokenAux_cons, Nat.sub_add_cancel hp, skipWhitespace_nil,
        if_pos hws]
    · have hbo := dispatchToken_byte_offset [] c p t p' h
      rw [hbo]
      unfold nextToken
      rw [hdrop, nextTokenAux_cons, Nat.sub_add_cancel hp, skipWhitespace_nil,
        if_neg hws]
      exact h
  | cons c2 rest' ih =>
    intro c p t p' hdrop hp h
    rw [skipWhitespace_cons] at h
    split_ifs at h with hws
    · have hdrop' : src.drop (p + 1 - 1) = c2 :: rest' := by
        have h1 : (src.drop (p - 1)).tail = c2 :: rest' := by rw [hdrop]; rfl
        rw [List.tail_drop] at h1
        rw [Nat.sub_add_cancel hp] at h1
        simpa using h1
      exact ih c2 (p + 1) t p' hdrop' (by omega) h
    · have hbo := dispatchToken_byte_offset (c2 :: rest') c p t p' h
      rw [hbo]
      unfold nextToken
      rw [hdrop, nextTokenAux_cons, Nat.sub_add_cancel hp, skipWhitespace_cons,
        if_neg hws]
      exact h

/-- C8: for every token `next_token` returns, seeking the cursor back to the
token's `byte_offset` and scanning again yields the identical token (same
offset, kind and text) and the identical cursor position; since the
tokenizer is a pure function of source and position, resuming from any
previously observed position always reproduces the identical subsequent
token sequence. -/
theorem c8_byte_offset_rescan_reproduces (src : List Nat) (p : Nat) (t : Token)
    (p' : Nat) (h : nextToken src p = (Except.ok (some t), p')) :
    nextToken src t.byte_offset = (Except.ok (some t), p') := by
  unfold nextToken at h
  cases hd : src.drop p with
  | nil =>
    rw [hd, nextTokenAux_nil] at h
    simp at h
  | cons c rest =>
    rw [hd, nextTokenAux_cons] at h
    exact skipWhitespace_rescan src rest c (p + 1) t p' (by simpa using hd)
      (by omega) h

/-- C8 witness: on the source `" 1"` the Number token at offset 1 is
reproduced by rescanning from its byte offset. -/
theorem c8_witness :
    nextToken [32, 49] (Token.byte_offset ⟨1, TokenType.NUMBER, [49]⟩)
      = (Except.ok (some ⟨1, TokenType.NUMBER, [49]⟩), 2) :=
  c8_byte_offset_rescan_reproduces [32, 49] 0 ⟨1, TokenType.NUMBER, [49]⟩ 2 rfl

/-- The non-comment filter never returns a Comment token (strong induction
on the number of unread bytes). -/
theorem nextNonCommentToken_no_comment : ∀ (n : Nat) (src : List Nat) (p : Nat),
    src.length + 1 - p ≤ n → ∀ (t : Token) (p' : Nat),
    nextNonCommentToken src p = (Except.ok (some t), p') →
    t.token_type ≠ TokenType.COMMENT := by
  intro n
  induction n with
  | zero =>
    intro src p hle t p' h hcom
    have hnt : nextToken src p = (Except.ok none, p) := by
      unfold nextToken
      rw [List.drop_eq_nil_of_le (by omega), nextTokenAux_nil]
    unfold nextNonCommentToken at h
    split at h
    · rename_i t2 p2 heq
      rw [hnt] at heq
      simp at heq
    · simp at h
    · simp at h
  | succ n ih =>
    intro src p hle t p' h hcom
    unfold nextNonCommentToken at h
    split at h
    · rename_i t2 p2 heq
      split_ifs at h with hc
      · have prog := nextToken_comment_progress src p t2 p2 heq hc
        exact ih src p2 (by omega) t p' h hcom
      · simp only [Prod.mk.injEq, Except.ok.injEq, Option.some.injEq] at h
        obtain ⟨ht', hp'⟩ := h
        subst ht'
        exact hc hcom
    · simp at h
    · simp at h

/-- C9: `next_non_comment_token` repeatedly calls `next_token`, discarding
Comment tokens.  On the input `"% a comment\n123"`, `next_token` first
returns the Comment token `"% a comment"` (line terminator excluded and
pushed back) and then the Number token `"123"`, while
`next_non_comment_token` on the same input directly returns that Number
token; in general the token it returns is never a Comment token. -/
theorem c9_next_non_comment_token :
    nextToken [37, 32, 97, 32, 99, 111, 109, 109, 101, 110, 116, 10, 49, 50, 51] 0
      = (Except.ok (some ⟨0, TokenType.COMMENT,
          [37, 32, 97, 32, 99, 111, 109, 109, 101, 110, 116]⟩), 11) ∧
    nextToken [37, 32, 97, 32, 99, 111, 109, 109, 101, 110, 116, 10, 49, 50, 51] 11
      = (Except.ok (some ⟨12, TokenType.NUMBER, [49, 50, 51]⟩), 15) ∧
    nextNonCommentToken [37, 32, 97, 32, 99, 111, 109, 109, 101, 110, 116, 10, 49, 50, 51] 0
      = (Except.ok (some ⟨12, TokenType.NUMBER, [49, 50, 51]⟩), 15) ∧
    (∀ (src : List Nat) (p : Nat) (t : Token) (p' : Nat),
      nextNonCommentToken src p = (Except.ok (some t), p') →
      t.token_type ≠ TokenType.COMMENT) := by
  refine ⟨rfl, rfl, ?_, fun src p t p' h =>
    nextNonCommentToken_no_comment (src.length + 1 - p) src p (Nat.le_refl _) t p' h⟩
  unfold nextNonCommentToken
  show nextNonCommentToken [37, 32, 97, 32, 99, 111, 109, 109, 101, 110, 116, 10, 49, 50, 51] 11
    = (Except.ok (some ⟨12, TokenType.NUMBER, [49, 50, 51]⟩), 15)
  unfold nextNonCommentToken
  rfl

/-- C9 witness: the general conjunct applied to the concrete run above. -/
theorem c9_witness :
    (⟨12, TokenType.NUMBER, [49, 50, 51]⟩ : Token).token_type ≠ TokenType.COMMENT :=
  c9_next_non_comment_token.2.2.2
    [37, 32, 97, 32, 99, 111, 109, 109, 101, 110, 116, 10, 49, 50, 51] 0
    ⟨12, TokenType.NUMBER, [49, 50, 51]⟩ 15 c9_next_non_comment_token.2.2.1

theorem nameScanFuel_sufficient : ∀ (fuel : Nat) (rest acc : List Nat) (p : Nat),
    rest.length < fuel →
    nameScanFuel fuel rest acc p = some (nameScan rest acc p) := by
  intro fuel
  induction fuel with
  | zero => intro rest acc p hlt; omega
  | succ fuel ih =>
    intro rest acc p hlt
    cases rest with
    | nil => rfl
    | cons c rest' =>
      rw [nameScanFuel, nameScan_cons]
      split_ifs
      · rfl
      · exact ih rest' (acc ++ [c]) (p + 1) (by simp at hlt; omega)

theorem commentScanFuel_sufficient : ∀ (fuel ch : Nat) (rest acc : List Nat) (p : Nat),
    rest.length < fuel →
    commentScanFuel fuel ch rest acc p = some (commentScan ch rest acc p) := by
  intro fuel
  induction fuel with
  | zero => intro ch rest acc p hlt; omega
  | succ fuel ih =>
    intro ch rest acc p hlt
    cases rest with
    | nil =>
      rw [commentScanFuel, commentScan_nil]
      split_ifs <;> rfl
    | cons c rest' =>
      rw [commentScanFuel, commentScan_cons]
      split_ifs
      · rfl
      · exact ih c rest' (acc ++ [ch]) (p + 1) (by simp at hlt; omega)

theorem hexScanFuel_sufficient : ∀ (fuel : Nat) (rest acc : List Nat) (p : Nat),
    rest.length < fuel →
    hexScanFuel fuel rest acc p = some (hexScan rest acc p) := by
  intro fuel
  induction fuel with
  | zero => intro rest acc p hlt; omega
  | succ fuel ih =>
    intro rest acc p hlt
    cases rest with
    | nil => rfl
    | cons c rest' =>
      rw [hexScanFuel, hexScan_cons]
      split_ifs
      · rfl
      · exact ih rest' (acc ++ [c]) (p + 1) (by simp at hlt; omega)

theorem numberScanFuel_sufficient : ∀ (fuel ch : Nat) (rest acc : List Nat) (p : Nat),
    rest.length < fuel →
    numberScanFuel fuel ch rest acc p = some (numberScan ch rest acc p) := by
  intro fuel
  induction fuel with
  | zero => intro ch rest acc p hlt; omega
  | succ fuel ih =>
    intro ch rest acc p hlt
    cases rest with
    | nil =>
      rw [numberScanFuel, numberScan_nil]
      split_ifs <;> rfl
    | cons c rest' =>
      rw [numberScanFuel, numberScan_cons]
      split_ifs
      · exact ih c rest' (acc ++ [ch]) (p + 1) (by simp at hlt; omega)
      · rfl

theorem otherScanFuel_sufficient : ∀ (fuel ch : Nat) (rest acc : List Nat) (p : Nat),
    rest.length < fuel →
    otherScanFuel fuel ch rest acc p = some (otherScan ch rest acc p) := by
  intro fuel
  induction fuel with
  | zero => intro ch rest acc p hlt; omega
  | succ fuel ih =>
    intro ch rest acc p hlt
    cases rest with
    | nil =>
      rw [otherScanFuel, otherScan_nil]
      split_ifs <;> rfl
    | cons c rest' =>
      rw [otherScanFuel, otherScan_cons]
      split_ifs
      · rfl
      · exact ih c rest' (acc ++ [ch]) (p + 1) (by simp at hlt; omega)

theorem stringScanFuel_sufficient : ∀ (fuel : Nat) (rest : List Nat) (nesting : Int)
    (acc : List Nat) (p : Nat), rest.length < fuel →
    stringScanFuel fuel rest nesting acc p = some (stringScan rest nesting acc p) := by
  intro fuel
  induction fuel with
  | zero => intro rest nesting acc p hlt; omega
  | succ fuel ih =>
    intro rest nesting acc p hlt
    cases rest with
    | nil => rfl
    | cons c rest' =>
      by_cases h92 : c = 92
      · subst h92
        cases rest' with
        | nil => rfl
        | cons c2 rest'' =>
          show stringScanFuel fuel rest'' nesting (acc ++ [92, c2]) (p + 2)
            = some (stringScan (92 :: c2 :: rest'') nesting acc p)
          rw [stringScan_backslash]
          exact ih rest'' nesting (acc ++ [92, c2]) (p + 2) (by simp at hlt; omega)
      · rw [stringScan_step c rest' nesting acc p h92]
        have hstep : stringScanFuel (fuel + 1) (c :: rest') nesting acc p =
            if c = 92 then
              (match rest' with
               | [] => some (Except.error ScanError.unterminatedString)
               | c2 :: rest'' => stringScanFuel fuel rest'' nesting (acc ++ [92, c2]) (p + 2))
            else
              if (if c = 40 then nesting + 1 else if c = 41 then nesting - 1 else nesting) = 0
              then some (Except.ok (acc ++ [c], p + 1))
              else stringScanFuel fuel rest'
                (if c = 40 then nesting + 1 else if c = 41 then nesting - 1 else nesting)
                (acc ++ [c]) (p + 1) := rfl
        rw [hstep, if_neg h92]
        set w : Int := if c = 40 then nesting + 1
          else if c = 41 then nesting - 1 else nesting with hw
        split_ifs with h0
        · rfl
        · exact ih rest' w (acc ++ [c]) (p + 1) (by simp at hlt; omega)

theorem dispatchTokenFuel_sufficient (fuel : Nat) (rest : List Nat) (ch p : Nat)
    (hlt : rest.length < fuel) :
    dispatchTokenFuel fuel rest ch p = some (dispatchToken rest ch p) := by
  by_cases h91 : ch = 91
  · subst h91; rfl
  by_cases h93 : ch = 93
  · subst h93; rfl
  by_cases h47 : ch = 47
  · subst h47
    show (match nameScanFuel fuel rest [47] p with
      | none => none
      | some r => some (Except.ok (some (⟨p - 1, TokenType.NAME, r.1⟩ : Token)), r.2))
      = some (Except.ok (some (⟨p - 1, TokenType.NAME, (nameScan rest [47] p).1⟩ : Token)),
          (nameScan rest [47] p).2)
    rw [nameScanFuel_sufficient fuel rest [47] p hlt]
  by_cases h62 : ch = 62
  · subst h62
    cases rest with
    | nil => rfl
    | cons c rest' =>
      by_cases hc : c = 62
      · subst hc; rfl
      · show (if c = 62 then _ else some (Except.error ScanError.malformedDictionaryClose, p + 1))
          = some (if c = 62 then _ else (Except.error ScanError.malformedDictionaryClose, p + 1))
        rw [if_neg hc, if_neg hc]
  by_cases h37 : ch = 37
  · subst h37
    show (match commentScanFuel fuel 37 rest [] p with
      | none => none
      | some r => some (Except.ok (some (⟨p - 1, TokenType.COMMENT, r.1⟩ : Token)), r.2))
      = some (Except.ok (some (⟨p - 1, TokenType.COMMENT, (commentScan 37 rest [] p).1⟩ : Token)),
          (commentScan 37 rest [] p).2)
    rw [commentScanFuel_sufficient fuel 37 rest [] p hlt]
  by_cases h60 : ch = 60
  · subst h60
    cases rest with
    | nil =>
      show (match hexScanFuel fuel [] [60] p with
        | none => none
        | some r => some (Except.ok (some (⟨p - 1, TokenType.HEX_STRING, r.1⟩ : Token)), r.2))
        = some (Except.ok (some (⟨p - 1, TokenType.HEX_STRING, (hexScan [] [60] p).1⟩ : Token)),
            (hexScan [] [60] p).2)
      rw [hexScanFuel_sufficient fuel [] [60] p (by omega)]
    | cons c2 rest' =>
      by_cases hc2 : c2 = 60
      · subst hc2; rfl
      by_cases hc2' : c2 = 62
      · subst hc2'
        rfl
      · show (if c2 = 60 then _
            else if c2 = 62 then _
            else (match hexScanFuel fuel rest' [60, c2] (p + 1) with
              | none => none
              | some r => some (Except.ok (some (⟨p - 1, TokenType.HEX_STRING, r.1⟩ : Token)), r.2)))
          = some (if c2 = 60 then _
            else if c2 = 62 then _
            else (Except.ok (some ⟨p - 1, TokenType.HEX_STRING,
                (hexScan rest' [60, c2] (p + 1)).1⟩), (hexScan rest' [60, c2] (p + 1)).2))
        rw [if_neg hc2, if_neg hc2', if_neg hc2, if_neg hc2',
          hexScanFuel_sufficient fuel rest' [60, c2] (p + 1) (by simp at hlt; omega)]
  unfold dispatchTokenFuel dispatchToken
  simp only [if_neg h91, if_neg h93, if_neg h47, if_neg h62, if_neg h37, if_neg h60]
  by_cases hnum : isNumberByte ch = true
  · rw [if_pos hnum, if_pos hnum, numberScanFuel_sufficient fuel ch rest [] p hlt]
  by_cases h40 : ch = 40
  · subst h40
    rw [if_neg hnum, if_neg hnum, if_pos rfl, if_pos rfl,
      stringScanFuel_sufficient fuel rest 1 [40] p hlt]
    cases hres : stringScan rest 1 [40] p with
    | ok r => cases r; rfl
    | error e => rfl
  · rw [if_neg hnum, if_neg hnum, if_neg h40, if_neg h40,
      otherScanFuel_sufficient fuel ch rest [] p hlt]

theorem skipWhitespaceFuel_sufficient : ∀ (fuel : Nat) (rest : List Nat) (ch p : Nat),
    rest.length < fuel →
    skipWhitespaceFuel fuel rest ch p = some (skipWhitespace rest ch p) := by
  intro fuel
  induction fuel with
  | zero => intro rest ch p hlt; omega
  | succ fuel ih =>
    intro rest ch p hlt
    cases rest with
    | nil =>
      rw [skipWhitespaceFuel, skipWhitespace_nil]
      split_ifs with hws
      · rfl
      · exact dispatchTokenFuel_sufficient (fuel + 1) [] ch p (by simp)
    | cons c rest' =>
      rw [skipWhitespaceFuel, skipWhitespace_cons]
      split_ifs with hws
      · exact ih rest' c (p + 1) (by simp at hlt; omega)
      · exact dispatchTokenFuel_sufficient (fuel + 1) (c :: rest') ch p hlt

/-- C10: one call of `next_token` terminates, and every internal scanning
loop (whitespace skip, name, comment, hex string, number, literal string,
other) consumes at least one byte of the remaining source per iteration:
replaying the call with an explicit per-loop iteration budget of one more
than the source length always completes, reproducing `next_token`'s
result. -/
theorem c10_next_token_terminates (src : List Nat) (p : Nat) :
    nextTokenFuel (src.length + 1) src p = some (nextToken src p) := by
  unfold nextTokenFuel nextToken
  cases hd : src.drop p with
  | nil => rw [nextTokenAux_nil]
  | cons c rest =>
    rw [nextTokenAux_cons]
    apply skipWhitespaceFuel_sufficient
    have : (src.drop p).length ≤ src.length := by
      rw [List.length_drop]
      omega
    rw [hd] at this
    simp at this
    omega


/-- C10 witness: the fuel bound applied to the one-byte source `")"`. -/
theorem c10_witness : nextTokenFuel 2 [41] 0 = some (nextToken [41] 0) :=
  c10_next_token_terminates [41] 0

end Ptext
